import Mathlib

/-!
Shallow embedding of the worktree-to-container lifecycle tool (`jolo.py`)
and proofs of the specification claims about it.

Filesystem paths are modelled as lists of path segments (`JPath`); the
filesystem itself as a record of existing directory paths and files with
string contents.  External processes (git, the container runtime) are
modelled by passing their observable results (exit codes, captured stdout,
container listings) as explicit parameters.  Python strings are modelled as
Lean `String`s; character-level operations (`str.split`, `str.rstrip`,
`os.path.expanduser`) are embedded as explicit functions on `List Char`.
-/

namespace Jolo

/-- Filesystem path, as a list of path segments (the model of `pathlib.Path`
used where the source manipulates paths structurally). -/
abbrev JPath := List String

/-- Filesystem state: the set of existing directories and the existing
regular files with their text contents. -/
structure FS where
  dirs : List JPath
  files : List (JPath × String)
  deriving DecidableEq

/-- Model of `Path.exists()`: true when the path is a directory or a file. -/
def pathExists (fs : FS) (p : JPath) : Bool :=
  fs.dirs.contains p || fs.files.any (fun f => f.1 == p)

/-- Content of a regular file, when present (first matching entry). -/
def getFile (fs : FS) (p : JPath) : Option String :=
  (fs.files.find? (fun f => f.1 == p)).map Prod.snd

/-- Model of `Path.write_text`: replace or create the file at `p`. -/
def setFile (fs : FS) (p : JPath) (content : String) : FS :=
  { fs with files := (p, content) :: fs.files.filter (fun f => !(f.1 == p)) }

/-- Nonempty prefixes of a path: the path itself and all its ancestors. -/
def pathPrefixes (p : JPath) : List JPath :=
  (List.range p.length).map (fun i => p.take (i + 1))

/-- Model of `Path.mkdir(parents=True)`: create the directory and any
missing ancestors. -/
def mkdirP (fs : FS) (p : JPath) : FS :=
  { fs with dirs := pathPrefixes p ++ fs.dirs }

/-- Strict-descendant test: `q` lies strictly below directory `p`. -/
def strictUnder (p q : JPath) : Bool :=
  decide (p <+: q) && !(p == q)

/-- Model of `shutil.rmtree(p)`: remove `p` and everything below it. -/
def rmtree (fs : FS) (p : JPath) : FS :=
  { dirs := fs.dirs.filter (fun q => !(decide (p <+: q)))
    files := fs.files.filter (fun f => !(decide (p <+: f.1))) }

/-- Model of `shutil.copy2(src, dst)` guarded by the caller's existence
check: write `dst` with the content of `src`. -/
def copyFile (fs : FS) (src dst : JPath) : FS :=
  setFile fs dst ((getFile fs src).getD "")

/-- Model of `shutil.copytree(src, dst)`: create `dst` and copy every
directory and file below `src` to the corresponding path below `dst`. -/
def copytree (fs : FS) (src dst : JPath) : FS :=
  { dirs := dst :: fs.dirs.filterMap
      (fun q => if strictUnder src q then some (dst ++ q.drop src.length) else none)
      ++ fs.dirs
    files := fs.files.filterMap
      (fun f => if strictUnder src f.1 then some (dst ++ f.1.drop src.length, f.2) else none)
      ++ fs.files }

/-- Embedding of `clear_directory_contents` (jolo.py:1219): remove all
contents of a directory without removing the directory itself. -/
def clear_directory_contents (fs : FS) (p : JPath) : FS :=
  if pathExists fs p then
    { dirs := fs.dirs.filter (fun q => !(strictUnder p q))
      files := fs.files.filter (fun f => !(strictUnder p f.1)) }
  else fs

/-! ### Character-level string helpers (Python `str` operations) -/

/-- Model of Python `s.split(sep)` for a one-character separator on a
character list: split at every occurrence; `""` splits to `[""]`. -/
def splitOnChar (sep : Char) : List Char → List (List Char)
  | [] => [[]]
  | c :: rest =>
    if c = sep then [] :: splitOnChar sep rest
    else
      match splitOnChar sep rest with
      | [] => [[c]]
      | h :: t => (c :: h) :: t

/-- Model of Python `s.split(":")`. -/
def splitColon : List Char → List (List Char) :=
  splitOnChar ':'

/-- Model of Python `sep.join(parts)` for a one-character separator. -/
def joinOnChar (sep : Char) : List (List Char) → List Char
  | [] => []
  | [x] => x
  | x :: xs => x ++ sep :: joinOnChar sep xs

/-- Model of Python `":".join(parts)`. -/
def joinColon : List (List Char) → List Char :=
  joinOnChar ':'

/-- Model of Python `s.split(":", 1)`: split at the first colon only;
`none` when the string contains no colon. -/
def splitFirstColon : List Char → Option (List Char × List Char)
  | [] => none
  | c :: rest =>
    if c = ':' then some ([], rest)
    else (splitFirstColon rest).map (fun p => (c :: p.1, p.2))

/-- Model of `os.path.expanduser` for the leading-tilde forms the tool
uses (`~` and `~/...`; the `~otheruser` form is not modelled). -/
def expanduser (home : String) (s : String) : String :=
  match s.data with
  | ['~'] => home
  | '~' :: '/' :: rest => home ++ String.mk ('/' :: rest)
  | _ => s

/-- Model of Python `s.rstrip("/")`: drop all trailing slashes. -/
def rstripSlash (s : String) : String :=
  String.mk ((s.data.reverse.dropWhile (fun c => c == '/')).reverse)

/-- Leading-slash test on a string (Python `s.startswith("/")`). -/
def startsWithSlash (s : String) : Bool :=
  match s.data with
  | '/' :: _ => true
  | _ => false

/-- Trailing-slash test on a string. -/
def endsWithSlash (s : String) : Bool :=
  match s.data.reverse with
  | '/' :: _ => true
  | _ => false

/-- Model of `pathlib.Path(s).name`: the final path component (empty for
the root or the empty string). -/
def pyName (s : String) : String :=
  String.mk ((splitOnChar '/' (rstripSlash s).data).getLastD [])

/-- Model of `pathlib.Path(s).parent` for an input without trailing
slashes: drop the final component. -/
def pyParent (s : String) : String :=
  let parts := splitOnChar '/' s.data
  let joined := String.mk (joinOnChar '/' parts.dropLast)
  if joined = "" then (if startsWithSlash s then "/" else ".") else joined

/-- Model of `pathlib.Path(a) / b`: an absolute `b` replaces `a`. -/
def pyJoin (a b : String) : String :=
  if startsWithSlash b then b
  else if a = "" || a = "." then b
  else if endsWithSlash a then a ++ b
  else a ++ "/" ++ b

/-- Model of Python `s.lower()` (ASCII case mapping). -/
def pyLower (s : String) : String :=
  String.mk (s.data.map Char.toLower)

/-! ### Mount and copy argument parsing -/

/-- Result of `parse_mount` (jolo.py:832). -/
structure Mount where
  source : String
  target : String
  readonly : Bool
  deriving DecidableEq

/-- Target resolution shared by mount parsing (jolo.py:861): absolute
targets are kept, relative ones resolve under the container workspace. -/
def resolveMountTarget (projectName : String) (target : String) : String :=
  if !(startsWithSlash target) then "/workspaces/" ++ projectName ++ "/" ++ target
  else target

/-- Tail of `parse_mount` after the `:ro` handling (jolo.py:851): fewer
than two components is a fatal syntax error (`none`); otherwise the first
component is the source (tilde-expanded) and the colon-join of the rest is
the target. -/
def resolveMountParts (home projectName : String) (parts : List (List Char))
    (readonly : Bool) : Option Mount :=
  match parts with
  | p0 :: p1 :: rest =>
    some { source := expanduser home (String.mk p0)
           target := resolveMountTarget projectName (String.mk (joinColon (p1 :: rest)))
           readonly := readonly }
  | _ => none

/-- Embedding of `parse_mount` (jolo.py:832): split on every colon, strip
a trailing `"ro"` component, then resolve source and target.  A fatal
`sys.exit` is modelled as `none`. -/
def parse_mount (home : String) (arg : String) (projectName : String) : Option Mount :=
  let parts := splitColon arg.data
  if parts.length ≥ 2 && parts.getLastD [] == "ro".data then
    resolveMountParts home projectName parts.dropLast true
  else
    resolveMountParts home projectName parts false

/-- Specification-order variant of `parse_mount` that follows the spec's
words: the `:ro` suffix, when present, is stripped from the argument
before the string is split into source and target, and readonly records
exactly whether the suffix was present. -/
def parse_mount_spec (home : String) (arg : String) (projectName : String) : Option Mount :=
  let l := arg.data
  let readonly : Bool := [':', 'r', 'o'].isSuffixOf l
  let core : List Char := if readonly then l.take (l.length - 3) else l
  resolveMountParts home projectName (splitColon core) readonly

/-- Result of `parse_copy` (jolo.py:868). -/
structure CopySpec where
  source : String
  target : String
  deriving DecidableEq

/-- Embedding of `parse_copy` (jolo.py:868): split at the first colon
only; without a colon the target is the workspace joined with the
expanded source's basename. -/
def parse_copy (home : String) (arg : String) (projectName : String) : CopySpec :=
  match splitFirstColon arg.data with
  | some (s, t) =>
    let source := expanduser home (String.mk s)
    let target := String.mk t
    { source := source
      target := if !(startsWithSlash target)
                then "/workspaces/" ++ projectName ++ "/" ++ target
                else target }
  | none =>
    let source := expanduser home arg
    { source := source
      target := "/workspaces/" ++ projectName ++ "/" ++ pyName source }

/-! ### Container and worktree naming -/

/-- Embedding of `get_container_name` (jolo.py:1453): lowercased project
basename, with `-<worktree>` appended when a truthy worktree name is
given (Python truthiness: the empty string does not count). -/
def get_container_name (projectPath : String) (worktreeName : Option String) : String :=
  let projectName := pyLower (pyName (rstripSlash projectPath))
  match worktreeName with
  | some w => if w ≠ "" then projectName ++ "-" ++ w else projectName
  | none => projectName

/-- Embedding of `get_worktree_path` (jolo.py:1462):
`<parent>/<project>-worktrees/<name>`. -/
def get_worktree_path (projectPath : String) (worktreeName : String) : String :=
  let stripped := rstripSlash projectPath
  let projectName := pyName stripped
  let worktreesDir := pyJoin (pyParent stripped) (projectName ++ "-worktrees")
  pyJoin worktreesDir worktreeName

/-! ### JSON documents and the devcontainer descriptor builder -/

/-- JSON values (the fragment the descriptor uses). -/
inductive Json where
  | str (s : String)
  | arr (xs : List Json)
  | obj (kvs : List (String × Json))

/-- String escaping as performed by `json.dumps` on the characters the
descriptor can contain. -/
def escapeJson (s : String) : String :=
  String.join (s.data.map (fun c =>
    if c = '"' then "\\\""
    else if c = '\\' then "\\\\"
    else if c = '\n' then "\\n"
    else String.mk [c]))

/-- Indentation of `n` spaces. -/
def indentSpaces (n : Nat) : String :=
  String.mk (List.replicate n ' ')

/-- Comma-newline join used between items of `json.dumps(-, indent=4)`. -/
def joinCommaNl (items : List String) : String :=
  String.intercalate ",\n" items

mutual

/-- Rendering of `json.dumps(value, indent=4)` at indentation `ind`. -/
def renderJson (ind : Nat) : Json → String
  | .str s => "\"" ++ escapeJson s ++ "\""
  | .arr xs =>
    match xs with
    | [] => "[]"
    | _ => "[\n" ++ joinCommaNl (renderJsonItems (ind + 4) xs) ++ "\n"
        ++ indentSpaces ind ++ "]"
  | .obj kvs =>
    match kvs with
    | [] => "\x7b\x7d"
    | _ => "\x7b\n" ++ joinCommaNl (renderJsonFields (ind + 4) kvs) ++ "\n"
        ++ indentSpaces ind ++ "\x7d"

/-- Rendering of the elements of a JSON array. -/
def renderJsonItems (ind : Nat) : List Json → List String
  | [] => []
  | x :: xs => (indentSpaces ind ++ renderJson ind x) :: renderJsonItems ind xs

/-- Rendering of the key-value pairs of a JSON object. -/
def renderJsonFields (ind : Nat) : List (String × Json) → List String
  | [] => []
  | (k, v) :: xs =>
    (indentSpaces ind ++ "\"" ++ escapeJson k ++ "\": " ++ renderJson ind v)
      :: renderJsonFields ind xs

end

/-- Embedding of `BASE_MOUNTS` (jolo.py:937): bind mounts always included
in the descriptor. -/
def BASE_MOUNTS : List String :=
  [ "source=/tmp/.X11-unix,target=/tmp/.X11-unix,type=bind"
  , "source=$\x7blocalWorkspaceFolder\x7d/.devcontainer/.gemini-cache,target=/home/$\x7blocalEnv:USER\x7d/.gemini,type=bind"
  , "source=$\x7blocalWorkspaceFolder\x7d/.devcontainer/.claude-cache,target=/home/$\x7blocalEnv:USER\x7d/.claude,type=bind"
  , "source=$\x7blocalWorkspaceFolder\x7d/.devcontainer/.claude.json,target=/home/$\x7blocalEnv:USER\x7d/.claude.json,type=bind"
  , "source=$\x7blocalEnv:HOME\x7d/.zshrc,target=/home/$\x7blocalEnv:USER\x7d/.zshrc,type=bind,readonly"
  , "source=$\x7blocalWorkspaceFolder\x7d/.devcontainer/.histfile,target=/home/$\x7blocalEnv:USER\x7d/.histfile,type=bind"
  , "source=$\x7blocalEnv:HOME\x7d/.tmux.conf,target=/home/$\x7blocalEnv:USER\x7d/.tmux.conf,type=bind,readonly"
  , "source=$\x7blocalEnv:HOME\x7d/.gitconfig,target=/home/$\x7blocalEnv:USER\x7d/.gitconfig,type=bind,readonly"
  , "source=$\x7blocalEnv:HOME\x7d/.config/tmux,target=/home/$\x7blocalEnv:USER\x7d/.config/tmux,type=bind,readonly"
  , "source=$\x7blocalWorkspaceFolder\x7d/.devcontainer/.emacs-config,target=/home/$\x7blocalEnv:USER\x7d/.config/emacs,type=bind"
  , "source=$\x7blocalWorkspaceFolder\x7d/.devcontainer/.emacs-cache,target=/home/$\x7blocalEnv:USER\x7d/.cache/emacs,type=bind"
  , "source=$\x7blocalEnv:HOME\x7d/.cache/emacs-container/elpaca,target=/home/$\x7blocalEnv:USER\x7d/.cache/emacs/elpaca,type=bind"
  , "source=$\x7blocalEnv:HOME\x7d/.cache/emacs-container/tree-sitter,target=/home/$\x7blocalEnv:USER\x7d/.cache/emacs/tree-sitter,type=bind"
  , "source=$\x7blocalEnv:HOME\x7d/.gnupg/pubring.kbx,target=/home/$\x7blocalEnv:USER\x7d/.gnupg/pubring.kbx,type=bind,readonly"
  , "source=$\x7blocalEnv:HOME\x7d/.gnupg/trustdb.gpg,target=/home/$\x7blocalEnv:USER\x7d/.gnupg/trustdb.gpg,type=bind,readonly"
  , "source=$\x7blocalEnv:XDG_RUNTIME_DIR\x7d/gnupg/S.gpg-agent,target=/home/$\x7blocalEnv:USER\x7d/.gnupg/S.gpg-agent,type=bind"
  , "source=$\x7blocalEnv:HOME\x7d/.config/gh,target=/home/$\x7blocalEnv:USER\x7d/.config/gh,type=bind,readonly" ]

/-- Embedding of `WAYLAND_MOUNT` (jolo.py:964): included only when a
Wayland session is detected on the host. -/
def WAYLAND_MOUNT : String :=
  "source=$\x7blocalEnv:XDG_RUNTIME_DIR\x7d/$\x7blocalEnv:WAYLAND_DISPLAY\x7d,target=/tmp/container-runtime/$\x7blocalEnv:WAYLAND_DISPLAY\x7d,type=bind"

/-- Embedding of `build_devcontainer_json` (jolo.py:967): the descriptor
content as a string.  `waylandDisplay` is the host `WAYLAND_DISPLAY`
environment variable (`none` or empty is falsy, as in Python). -/
def build_devcontainer_json (projectName : String) (port : Int)
    (waylandDisplay : Option String) : String :=
  let mounts := BASE_MOUNTS ++ (if waylandDisplay.getD "" ≠ "" then [WAYLAND_MOUNT] else [])
  let workspaceFolder := "/workspaces/" ++ projectName
  renderJson 0 (.obj
    [ ("name", .str projectName)
    , ("build", .obj [("dockerfile", .str "Dockerfile")])
    , ("workspaceFolder", .str workspaceFolder)
    , ("runArgs", .arr [.str "--hostname", .str projectName])
    , ("mounts", .arr (mounts.map .str))
    , ("containerEnv", .obj
        [ ("TERM", .str "xterm-256color")
        , ("DISPLAY", .str "$\x7blocalEnv:DISPLAY\x7d")
        , ("WAYLAND_DISPLAY", .str "$\x7blocalEnv:WAYLAND_DISPLAY\x7d")
        , ("XDG_RUNTIME_DIR", .str "/tmp/container-runtime")
        , ("ANTHROPIC_API_KEY", .str "$\x7blocalEnv:ANTHROPIC_API_KEY\x7d")
        , ("OPENAI_API_KEY", .str "$\x7blocalEnv:OPENAI_API_KEY\x7d")
        , ("PORT", .str (toString port))
        , ("WORKSPACE_FOLDER", .str workspaceFolder) ]) ])

/-- Embedding of `DOCKERFILE_TEMPLATE` (jolo.py:1004). -/
def DOCKERFILE_TEMPLATE : String :=
  "FROM BASE_IMAGE\n\nUSER root\nRUN apk add --no-cache nodejs npm\nLABEL devcontainer.metadata='[\x7b\"remoteUser\":\"CONTAINER_USER\"\x7d]'\n\nUSER CONTAINER_USER\n"

/-- Dockerfile content after the template substitutions of
`scaffold_devcontainer` / `sync_devcontainer`. -/
def dockerfileContent (baseImage username : String) : String :=
  (DOCKERFILE_TEMPLATE.replace "BASE_IMAGE" baseImage).replace "CONTAINER_USER" username

/-- Embedding of `scaffold_devcontainer` (jolo.py:1346): create
`.devcontainer` with the descriptor and Dockerfile only when the
directory does not already exist; return `false` and write nothing
otherwise.  `user` is the host `USER` environment variable. -/
def scaffold_devcontainer (projectName : String) (targetDir : JPath)
    (baseImage : String) (port : Int) (user : Option String)
    (waylandDisplay : Option String) (fs : FS) : FS × Bool :=
  let devcontainerDir := targetDir ++ [".devcontainer"]
  if pathExists fs devcontainerDir then (fs, false)
  else
    let fs1 := mkdirP fs devcontainerDir
    let username := user.getD "dev"
    let fs2 := setFile fs1 (devcontainerDir ++ ["devcontainer.json"])
      (build_devcontainer_json projectName port waylandDisplay)
    let fs3 := setFile fs2 (devcontainerDir ++ ["Dockerfile"])
      (dockerfileContent baseImage username)
    (fs3, true)

/-! ### Credential cache refresh -/

/-- Copy step guarded by a source existence check (the
`if src.exists(): shutil.copy2(src, dst)` pattern). -/
def copyIfExists (fs : FS) (src dst : JPath) : FS :=
  if pathExists fs src then copyFile fs src dst else fs

/-- Claude credential cache directory of a workspace
(`<workspace>/.devcontainer/.claude-cache`). -/
def claudeCachePath (workspaceDir : JPath) : JPath :=
  workspaceDir ++ [".devcontainer", ".claude-cache"]

/-- Gemini credential cache directory of a workspace
(`<workspace>/.devcontainer/.gemini-cache`). -/
def geminiCachePath (workspaceDir : JPath) : JPath :=
  workspaceDir ++ [".devcontainer", ".gemini-cache"]

/-- State after the claude cache clear-or-create step (jolo.py:1281). -/
def credState1 (workspaceDir : JPath) (fs : FS) : FS :=
  if pathExists fs (claudeCachePath workspaceDir)
  then clear_directory_contents fs (claudeCachePath workspaceDir)
  else mkdirP fs (claudeCachePath workspaceDir)

/-- State after copying `~/.claude/.credentials.json` (jolo.py:1288). -/
def credState2 (home workspaceDir : JPath) (fs : FS) : FS :=
  copyIfExists (credState1 workspaceDir fs)
    (home ++ [".claude", ".credentials.json"])
    (claudeCachePath workspaceDir ++ [".credentials.json"])

/-- State after copying `~/.claude/settings.json` (jolo.py:1288). -/
def credState3 (home workspaceDir : JPath) (fs : FS) : FS :=
  copyIfExists (credState2 home workspaceDir fs)
    (home ++ [".claude", "settings.json"])
    (claudeCachePath workspaceDir ++ ["settings.json"])

/-- State after the conditional `rmtree` of the statsig destination
(jolo.py:1296). -/
def credState4 (home workspaceDir : JPath) (fs : FS) : FS :=
  let fs3 := credState3 home workspaceDir fs
  if pathExists fs3 (home ++ [".claude", "statsig"])
      && pathExists fs3 (claudeCachePath workspaceDir ++ ["statsig"])
  then rmtree fs3 (claudeCachePath workspaceDir ++ ["statsig"])
  else fs3

/-- State after the conditional `copytree` of statsig (jolo.py:1298). -/
def credState5 (home workspaceDir : JPath) (fs : FS) : FS :=
  if pathExists (credState3 home workspaceDir fs) (home ++ [".claude", "statsig"])
  then copytree (credState4 home workspaceDir fs)
    (home ++ [".claude", "statsig"]) (claudeCachePath workspaceDir ++ ["statsig"])
  else credState4 home workspaceDir fs

/-- State after copying `~/.claude.json` (jolo.py:1300). -/
def credState6 (home workspaceDir : JPath) (fs : FS) : FS :=
  copyIfExists (credState5 home workspaceDir fs)
    (home ++ [".claude.json"]) (workspaceDir ++ [".devcontainer", ".claude.json"])

/-- State after the gemini cache clear-or-create step (jolo.py:1306). -/
def credState7 (home workspaceDir : JPath) (fs : FS) : FS :=
  let fs6 := credState6 home workspaceDir fs
  if pathExists fs6 (geminiCachePath workspaceDir)
  then clear_directory_contents fs6 (geminiCachePath workspaceDir)
  else mkdirP fs6 (geminiCachePath workspaceDir)

/-- State after copying `~/.gemini/settings.json` (jolo.py:1313). -/
def credState8 (home workspaceDir : JPath) (fs : FS) : FS :=
  copyIfExists (credState7 home workspaceDir fs)
    (home ++ [".gemini", "settings.json"]) (geminiCachePath workspaceDir ++ ["settings.json"])

/-- State after copying `~/.gemini/google_accounts.json` (jolo.py:1313). -/
def credState9 (home workspaceDir : JPath) (fs : FS) : FS :=
  copyIfExists (credState8 home workspaceDir fs)
    (home ++ [".gemini", "google_accounts.json"])
    (geminiCachePath workspaceDir ++ ["google_accounts.json"])

/-- State after copying `~/.gemini/oauth_creds.json` (jolo.py:1313); this
is also the final state of `setup_credential_cache`. -/
def credState10 (home workspaceDir : JPath) (fs : FS) : FS :=
  copyIfExists (credState9 home workspaceDir fs)
    (home ++ [".gemini", "oauth_creds.json"])
    (geminiCachePath workspaceDir ++ ["oauth_creds.json"])

/-- Embedding of `setup_credential_cache` (jolo.py:1268) as the sequence
of filesystem states it passes through, one state per mutation step: the
initial state, the state after each cache clear/create, after each
guarded file copy, and after the statsig subtree replacement. -/
def setup_credential_cache_states (home workspaceDir : JPath) (fs0 : FS) : List FS :=
  [ fs0
  , credState1 workspaceDir fs0
  , credState2 home workspaceDir fs0
  , credState3 home workspaceDir fs0
  , credState4 home workspaceDir fs0
  , credState5 home workspaceDir fs0
  , credState6 home workspaceDir fs0
  , credState7 home workspaceDir fs0
  , credState8 home workspaceDir fs0
  , credState9 home workspaceDir fs0
  , credState10 home workspaceDir fs0 ]

/-! ### Appending user mounts to the descriptor -/

/-- Lookup in a JSON object (Python `dict` access; `json.loads` yields
unique keys, so first-match lookup is faithful). -/
def jsonLookup (kvs : List (String × Json)) (k : String) : Option Json :=
  (kvs.find? (fun f => f.1 == k)).map Prod.snd

/-- Assignment in a JSON object: replace the value at an existing key in
place, or append a new key at the end (Python dict insertion order). -/
def jsonSet : List (String × Json) → String → Json → List (String × Json)
  | [], k, v => [(k, v)]
  | (k', v') :: rest, k, v =>
    if k' = k then (k, v) :: rest else (k', v') :: jsonSet rest k v

/-- Mount serialization of `add_user_mounts` (jolo.py:1515):
`source=...,target=...,type=bind[,readonly]`. -/
def mountString (m : Mount) : String :=
  "source=" ++ m.source ++ ",target=" ++ m.target ++ ",type=bind"
    ++ (if m.readonly then ",readonly" else "")

/-- Embedding of `add_user_mounts` (jolo.py:1499) on the parsed
descriptor object: with no mounts the file is left untouched; otherwise a
missing `mounts` key is initialised to `[]` and each mount string is
appended.  Appending to a non-array `mounts` value raises in Python and
is modelled as `none`. -/
def add_user_mounts (content : List (String × Json)) (mounts : List Mount) :
    Option (List (String × Json)) :=
  if mounts.isEmpty then some content
  else
    let content1 := if (jsonLookup content "mounts").isNone
                    then jsonSet content "mounts" (.arr []) else content
    match jsonLookup content1 "mounts" with
    | some (.arr xs) => some (jsonSet content1 "mounts" (.arr (xs ++ mounts.map (fun m => .str (mountString m)))))
    | _ => none

/-! ### Worktree listing -/

/-- Parser state for one stanza of `git worktree list --porcelain`
(the `current_worktree` dict; a field assigned the empty string still
marks the stanza as nonempty). -/
structure WtEntry where
  worktree : Option String
  head : Option String
  branch : Option String
  deriving DecidableEq

/-- Truthiness of the stanza dict (`if current_worktree:`). -/
def WtEntry.isSet (e : WtEntry) : Bool :=
  e.worktree.isSome || e.head.isSome || e.branch.isSome

/-- Finished tuple for one stanza: `(path, commit[:7],
branch.replace("refs/heads/", ""))`. -/
def WtEntry.finish (e : WtEntry) : String × String × String :=
  (e.worktree.getD "", ((e.head.getD "").take 7, (e.branch.getD "").replace "refs/heads/" ""))

/-- Processing of one output line of the porcelain listing. -/
def wtLine (acc : List (String × String × String) × WtEntry) (line : String) :
    List (String × String × String) × WtEntry :=
  let (out, e) := acc
  if line = "" then
    if e.isSet then (out ++ [e.finish], ⟨none, none, none⟩) else (out, e)
  else if line.startsWith "worktree " then (out, { e with worktree := some (line.drop 9) })
  else if line.startsWith "HEAD " then (out, { e with head := some (line.drop 5) })
  else if line.startsWith "branch " then (out, { e with branch := some (line.drop 7) })
  else (out, e)

/-- Embedding of `list_worktrees` (jolo.py:1660), parameterised by the
observed exit code and stdout of `git worktree list --porcelain`: a
non-zero exit yields the empty list; otherwise the porcelain output is
parsed stanza by stanza. -/
def list_worktrees (exitCode : Int) (stdout : String) : List (String × String × String) :=
  if exitCode ≠ 0 then []
  else
    let lines := stdout.trim.splitOn "\n"
    let (out, e) := lines.foldl wtLine ([], ⟨none, none, none⟩)
    if e.isSet then out ++ [e.finish] else out

/-! ### Main dispatch and the spawn precondition -/

/-- Python truthiness of an optional integer argument (`args.spawn`). -/
def intTruthy (o : Option Int) : Bool :=
  match o with
  | none => false
  | some n => n ≠ 0

/-- Python truthiness of an optional string argument. -/
def strTruthy (o : Option String) : Bool :=
  match o with
  | none => false
  | some s => s ≠ ""

/-- Parsed command-line arguments (the fields `main` consults;
jolo.py:1058-1174 defaults). -/
structure Args where
  sync : Bool := false
  list : Bool := false
  stop : Bool := false
  prune : Bool := false
  destroy : Bool := false
  switch : Bool := false
  attach : Bool := false
  spawn : Option Int := none
  init : Bool := false
  create : Option String := none
  tree : Option String := none
  start : Bool := false
  new : Bool := false
  detach : Bool := false
  prompt : Option String := none
  shell : Bool := false
  run : Option String := none

/-- Host environment facts `main` observes before dispatching. -/
structure Env where
  inTmux : Bool
  inGitRepo : Bool

/-- Terminal outcome of `main` on the paths the claims concern: which
mode the process ends up running, a fatal `sys.exit` with its message,
the help fall-through, or the silent fall-off at the end of `main`. -/
inductive MainOutcome where
  | syncMode
  | listMode
  | stopMode
  | pruneMode
  | destroyMode
  | helpShown
  | fatal (msg : String)
  | switchMode
  | attachMode
  | spawnProceed (n : Int)
  | initMode
  | createMode
  | treeMode
  | startMode
  | mainReturn
  deriving DecidableEq

/-- Embedding of the prologue of `run_spawn_mode` (jolo.py:2888):
`validate_tree_mode` exits fatally outside a git repository, then a count
below one exits fatally before any worktree creation. -/
def run_spawn_precheck (inGitRepo : Bool) (n : Int) : MainOutcome :=
  if !inGitRepo then
    .fatal "Error: Not in a git repository. --tree requires an existing repo."
  else if n < 1 then .fatal "Error: --spawn requires a positive integer"
  else .spawnProceed n

/-- Embedding of the dispatch logic of `main` (jolo.py:3107): the early
modes, the subcommand truthiness check that gates the help fall-through,
the tmux guard, and the elif dispatch chain.  Spawn dispatch continues
into `run_spawn_precheck`; the other modes are terminal outcomes. -/
def main_dispatch (a : Args) (e : Env) : MainOutcome :=
  if a.sync && !a.new then .syncMode
  else if a.list then .listMode
  else if a.stop then .stopMode
  else if a.prune then .pruneMode
  else if a.destroy then .destroyMode
  else if !(a.switch || a.attach || intTruthy a.spawn || a.init
      || strTruthy a.create || a.tree.isSome || a.start) then .helpShown
  else if !a.detach && !(strTruthy a.prompt) && !a.shell && !(strTruthy a.run)
      && e.inTmux then
    .fatal "Error: Already in tmux session. Nested tmux not supported."
  else if a.switch then .switchMode
  else if a.attach then .attachMode
  else if intTruthy a.spawn then run_spawn_precheck e.inGitRepo ((a.spawn).getD 0)
  else if a.init then .initMode
  else if strTruthy a.create then .createMode
  else if a.tree.isSome then .treeMode
  else if a.start then .startMode
  else .mainReturn

/-- Arguments produced by `jolo spawn N` (only `--spawn` set). -/
def spawnArgs (n : Int) : Args :=
  { spawn := some n }

/-! ### Prune flows -/

/-- One row of the container listing: name, labelled workspace folder,
state. -/
structure ContainerInfo where
  name : String
  folder : JPath
  state : String
  deriving DecidableEq

/-- Embedding of `find_containers_for_project` (jolo.py:1897),
parameterised by the detected runtime and the observed global container
listing: keep containers whose folder is the project root or lies in the
project's `-worktrees` directory, optionally filtered by state. -/
def find_containers_for_project (runtime : Option String)
    (allContainers : List ContainerInfo) (gitRoot : JPath)
    (stateFilter : Option String) : List ContainerInfo :=
  match runtime with
  | none => []
  | some _ =>
    let projectName := gitRoot.getLastD ""
    allContainers.filter (fun c =>
      (c.folder == gitRoot
        || c.folder.dropLast.getLastD "" == projectName ++ "-worktrees")
      && (stateFilter.isNone || some c.state == stateFilter))

/-- Embedding of `find_stopped_containers_for_project` (jolo.py:1933). -/
def find_stopped_containers_for_project (runtime : Option String)
    (allContainers : List ContainerInfo) (gitRoot : JPath) : List ContainerInfo :=
  (find_containers_for_project runtime allContainers gitRoot none).filter
    (fun c => c.state ≠ "running")

/-- Embedding of `find_stale_worktrees` (jolo.py:1942), parameterised by
the parsed worktree listing: worktrees other than the root whose path no
longer exists on disk. -/
def find_stale_worktrees (worktrees : List (String × String × String))
    (gitRoot : String) (dirOnDisk : String → Bool) : List (String × String) :=
  (worktrees.filter (fun w => w.1 ≠ gitRoot && !dirOnDisk w.1)).map
    (fun w => (w.1, w.2.2))

/-- External calls the prune flows issue after confirmation. -/
inductive PruneAction where
  | stopContainer (name : String)
  | removeContainer (name : String)
  | removeWorktree (path : String)
  deriving DecidableEq

/-- Stop/remove classifier for ordering statements. -/
def PruneAction.isStop : PruneAction → Bool
  | .stopContainer _ => true
  | _ => false

/-- Orphan classification shared by both prune flows: a container
reported `running` whose labelled folder no longer exists on disk. -/
def orphanContainers (containers : List ContainerInfo) (dirOnDisk : JPath → Bool) :
    List ContainerInfo :=
  containers.filter (fun c => c.state == "running" && !dirOnDisk c.folder)

/-- Embedding of `run_prune_global_mode` (jolo.py:1979) as the sequence
of external container calls it issues: nothing without a runtime (fatal
exit), nothing when there is nothing to prune or the user declines;
otherwise every orphan is stopped, then every stopped and orphan
container is removed. -/
def run_prune_global_trace (runtime : Option String)
    (allContainers : List ContainerInfo) (dirOnDisk : JPath → Bool)
    (confirmed : Bool) : List PruneAction :=
  match runtime with
  | none => []
  | some _ =>
    let stopped := allContainers.filter (fun c => c.state ≠ "running")
    let orphans := orphanContainers allContainers dirOnDisk
    if stopped.isEmpty && orphans.isEmpty then []
    else if !confirmed then []
    else orphans.map (fun c => .stopContainer c.name)
      ++ (stopped ++ orphans).map (fun c => .removeContainer c.name)

/-- Embedding of the project-scoped branch of `run_prune_mode`
(jolo.py:2038) as the sequence of external calls after the git root is
known: stopped and orphan containers for the project plus stale
worktrees are enumerated; after confirmation every orphan is stopped,
then containers are removed, then stale worktrees are removed. -/
def run_prune_trace (runtime : Option String)
    (allContainers : List ContainerInfo) (gitRoot : JPath)
    (dirOnDisk : JPath → Bool)
    (worktrees : List (String × String × String))
    (wtOnDisk : String → Bool) (confirmed : Bool) : List PruneAction :=
  match runtime with
  | none => []
  | some _ =>
    let stopped := find_stopped_containers_for_project runtime allContainers gitRoot
    let allProject := find_containers_for_project runtime allContainers gitRoot none
    let orphans := orphanContainers allProject dirOnDisk
    let stale := find_stale_worktrees worktrees (String.intercalate "/" gitRoot) wtOnDisk
    if stopped.isEmpty && orphans.isEmpty && stale.isEmpty then []
    else if !confirmed then []
    else orphans.map (fun c => .stopContainer c.name)
      ++ (stopped ++ orphans).map (fun c => .removeContainer c.name)
      ++ stale.map (fun w => .removeWorktree w.1)

/-! ## Supporting lemmas -/

/-- Appending a slash and then right-stripping slashes is the same as
right-stripping the original string. -/
theorem rstripSlash_append_slash (s : String) : rstripSlash (s ++ "/") = rstripSlash s := by
  unfold rstripSlash
  congr 1
  have h : (s ++ "/").data = s.data ++ ['/'] := String.data_append s "/"
  rw [h, List.reverse_append]
  simp

/-- Reading back a file just written yields the written content. -/
theorem getFile_setFile_same (fs : FS) (p : JPath) (c : String) :
    getFile (setFile fs p c) p = some c := by
  simp [getFile, setFile]

/-- Filtering out entries at a different key does not affect a lookup. -/
theorem find?_filter_ne (l : List (JPath × String)) (p q : JPath) (h : p ≠ q) :
    (l.filter (fun f => !(f.1 == q))).find? (fun f => f.1 == p)
      = l.find? (fun f => f.1 == p) := by
  induction l with
  | nil => rfl
  | cons hd tl ih =>
    by_cases hp : hd.1 = p
    · subst hp
      simp [List.filter_cons, List.find?_cons, h, ih]
    · simp only [List.filter_cons]
      by_cases hq : hd.1 = q
      · have hqp : (q == p) = false := beq_eq_false_iff_ne.mpr (fun e => h e.symm)
        simp [List.find?_cons, hq, h, hp, ih, hqp]
      · simp [List.find?_cons, hq, hp, ih]

/-- Writing one file does not change the content of another. -/
theorem getFile_setFile_ne (fs : FS) (p q : JPath) (c : String) (h : p ≠ q) :
    getFile (setFile fs q c) p = getFile fs p := by
  have hqp : ((q == p) = false) := beq_eq_false_iff_ne.mpr (fun e => h e.symm)
  simp only [getFile, setFile, List.find?_cons, hqp]
  rw [find?_filter_ne fs.files p q h]

/-- Every nonempty path is among its own prefixes. -/
theorem mem_pathPrefixes_self (p : JPath) (h : p ≠ []) : p ∈ pathPrefixes p := by
  have hl : 0 < p.length := List.length_pos.mpr h
  have : p.length - 1 ∈ List.range p.length := List.mem_range.mpr (by omega)
  have he : p.take (p.length - 1 + 1) = p := by
    rw [Nat.sub_add_cancel hl]
    exact List.take_length p
  exact List.mem_map.mpr ⟨p.length - 1, this, he⟩

/-! ## Claim theorems -/

/-- C7: `get_worktree_path` is a pure function of its two string
arguments; it resolves to `<parent>/<basename>-worktrees/<name>`, a
trailing slash on the root does not change the result, and on
`("/dev/myapp", "feature-x")` (with or without the trailing slash) it
yields `/dev/myapp-worktrees/feature-x`. -/
theorem get_worktree_path_spec :
    (∀ root name, get_worktree_path root name
      = pyJoin (pyJoin (pyParent (rstripSlash root))
          (pyName (rstripSlash root) ++ "-worktrees")) name)
    ∧ (∀ root name, get_worktree_path (root ++ "/") name = get_worktree_path root name)
    ∧ get_worktree_path "/dev/myapp" "feature-x" = "/dev/myapp-worktrees/feature-x"
    ∧ get_worktree_path "/dev/myapp/" "feature-x" = "/dev/myapp-worktrees/feature-x" := by
  refine ⟨fun root name => rfl, fun root name => ?_, by decide, by decide⟩
  simp only [get_worktree_path, rstripSlash_append_slash]

/-- C8: when the underlying `git worktree list --porcelain` call exits
with a non-zero status, `list_worktrees` returns the empty sequence. -/
theorem list_worktrees_nonzero_exit (exitCode : Int) (stdout : String)
    (h : exitCode ≠ 0) : list_worktrees exitCode stdout = [] := by
  simp [list_worktrees, h]

/-- Witness for C8 at exit code 1. -/
theorem list_worktrees_nonzero_exit_witness :
    (1 : Int) ≠ 0 ∧ list_worktrees 1 "worktree /a\nHEAD abc" = [] :=
  ⟨by decide, list_worktrees_nonzero_exit 1 "worktree /a\nHEAD abc" (by decide)⟩

/-- C6 (code bug): invoking the spawn command with N = 0 falls through to
the help output with a zero exit status, because `main` tests
`args.spawn` for truthiness and `0` is falsy, so `run_spawn_mode`'s own
`n < 1` fatal check is unreachable for 0.  A negative N does reach the
fatal check and exits with the error message. -/
theorem spawn_zero_falls_through_to_help :
    (∀ e : Env, main_dispatch (spawnArgs 0) e = .helpShown)
    ∧ (∀ k : Nat, main_dispatch (spawnArgs (-(k + 1 : Int))) ⟨false, true⟩
        = .fatal "Error: --spawn requires a positive integer") := by
  constructor
  · intro e
    rfl
  · intro k
    have h1 : ((-(k + 1 : Int)) ≠ 0) := by omega
    have h2 : (-(k + 1 : Int)) < 1 := by omega
    simp [main_dispatch, spawnArgs, intTruthy, strTruthy, run_spawn_precheck, h1, h2]
    rw [if_neg (by omega : ¬(-1 + -(k : Int) = 0)), if_neg (by omega : ¬(-1 + -(k : Int) = 0)),
      if_pos (by omega : (-1 : Int) < 1 + k)]

/-- C5 (counterexample): the container name is not entirely lowercase
when the worktree name contains an uppercase letter — only the project
basename is lowercased. -/
theorem get_container_name_not_all_lowercase :
    get_container_name "/dev/myapp" (some "Feature") = "myapp-Feature"
    ∧ pyLower "myapp-Feature" ≠ "myapp-Feature" := by
  constructor
  · rfl
  · decide

/-- C5 (amended): the container name is the lowercased project basename,
with `-` and the worktree name appended verbatim (not lowercased) when a
non-empty worktree name is given. -/
theorem get_container_name_amended :
    ∀ (p : String) (w : String),
      get_container_name p none = pyLower (pyName (rstripSlash p))
      ∧ (w ≠ "" → get_container_name p (some w)
          = pyLower (pyName (rstripSlash p)) ++ "-" ++ w)
      ∧ get_container_name p (some "") = pyLower (pyName (rstripSlash p)) := by
  intro p w
  refine ⟨rfl, fun h => ?_, rfl⟩
  simp [get_container_name, h]

/-- Witness for C5's amended theorem at a concrete project path and
worktree name. -/
theorem get_container_name_amended_witness :
    get_container_name "/dev/MyApp" (some "feat") = "myapp-feat" := by
  have h := (get_container_name_amended "/dev/MyApp" "feat").2.1 (by decide)
  exact h.trans (by decide)

/-- C1: `scaffold_devcontainer` writes the descriptor and Dockerfile only
when the workspace's `.devcontainer` directory does not already exist; if
it exists the call returns `false` and leaves the filesystem untouched,
and a second call on the same workspace always returns `false` and
changes nothing, so the descriptor content stays byte-identical. -/
theorem scaffold_devcontainer_spec :
    ∀ (pn : String) (target : JPath) (img : String) (port : Int)
      (user wayland : Option String) (fs : FS),
      (pathExists fs (target ++ [".devcontainer"]) = true →
        scaffold_devcontainer pn target img port user wayland fs = (fs, false))
      ∧ (pathExists fs (target ++ [".devcontainer"]) = false →
          (scaffold_devcontainer pn target img port user wayland fs).2 = true
          ∧ getFile (scaffold_devcontainer pn target img port user wayland fs).1
              ((target ++ [".devcontainer"]) ++ ["devcontainer.json"])
            = some (build_devcontainer_json pn port wayland)
          ∧ getFile (scaffold_devcontainer pn target img port user wayland fs).1
              ((target ++ [".devcontainer"]) ++ ["Dockerfile"])
            = some (dockerfileContent img (user.getD "dev")))
      ∧ (scaffold_devcontainer pn target img port user wayland
          (scaffold_devcontainer pn target img port user wayland fs).1).2 = false
      ∧ (scaffold_devcontainer pn target img port user wayland
          (scaffold_devcontainer pn target img port user wayland fs).1).1
        = (scaffold_devcontainer pn target img port user wayland fs).1 := by
  intro pn target img port user wayland fs
  cases h : pathExists fs (target ++ [".devcontainer"]) with
  | true =>
    have h1 : scaffold_devcontainer pn target img port user wayland fs = (fs, false) := by
      simp [scaffold_devcontainer, h]
    refine ⟨fun _ => h1, ?_, ?_, ?_⟩
    · intro hf; exact absurd hf (by simp)
    · rw [h1]; simp [scaffold_devcontainer, h]
    · rw [h1]; simp [scaffold_devcontainer, h]
  | false =>
    have hne : ((target ++ [".devcontainer"]) ++ ["devcontainer.json"])
        ≠ ((target ++ [".devcontainer"]) ++ ["Dockerfile"]) := by
      simp
    have hdev : pathExists
        (scaffold_devcontainer pn target img port user wayland fs).1
        (target ++ [".devcontainer"]) = true := by
      have hmem : (target ++ [".devcontainer"])
          ∈ pathPrefixes (target ++ [".devcontainer"]) ++ fs.dirs :=
        List.mem_append_left _ (mem_pathPrefixes_self _ (by simp))
      simp only [scaffold_devcontainer, h, Bool.false_eq_true, if_false]
      simp only [pathExists, setFile, mkdirP, Bool.or_eq_true]
      exact Or.inl (by simpa using hmem)
    have hsecond : scaffold_devcontainer pn target img port user wayland
        (scaffold_devcontainer pn target img port user wayland fs).1
        = ((scaffold_devcontainer pn target img port user wayland fs).1, false) := by
      generalize hg : (scaffold_devcontainer pn target img port user wayland fs).1 = fs1 at hdev
      simp [scaffold_devcontainer, hdev]
    refine ⟨?_, ?_, ?_, ?_⟩
    · intro ht; exact absurd ht (by simp)
    · refine fun _ => ⟨?_, ?_, ?_⟩
      · simp [scaffold_devcontainer, h]
      · simp only [scaffold_devcontainer, h, Bool.false_eq_true, if_false]
        rw [getFile_setFile_ne _ _ _ _ hne, getFile_setFile_same]
      · simp only [scaffold_devcontainer, h, Bool.false_eq_true, if_false]
        rw [getFile_setFile_same]
    · rw [hsecond]
    · rw [hsecond]

/-- Witness for C1: on an empty filesystem the first scaffold call
creates and reports creation, the second reports the directory already
existed and leaves everything unchanged. -/
theorem scaffold_devcontainer_spec_witness :
    (scaffold_devcontainer "p" ["w"] "img" 4000 none none ⟨[], []⟩).2 = true
    ∧ (scaffold_devcontainer "p" ["w"] "img" 4000 none none
        (scaffold_devcontainer "p" ["w"] "img" 4000 none none ⟨[], []⟩).1).2 = false := by
  have h := scaffold_devcontainer_spec "p" ["w"] "img" 4000 none none ⟨[], []⟩
  exact ⟨(h.2.1 (by decide)).1, h.2.2.1⟩

/-- Splitting at the first colon of a string built around one colon whose
front part is colon-free recovers the two parts. -/
theorem splitFirstColon_append (pre post : List Char) (h : ':' ∉ pre) :
    splitFirstColon (pre ++ ':' :: post) = some (pre, post) := by
  induction pre with
  | nil => simp [splitFirstColon]
  | cons c t ih =>
    have hc : ¬(c = ':') := fun e => h (e ▸ List.mem_cons_self c t)
    simp [splitFirstColon, hc, ih (fun m => h (List.mem_cons_of_mem c m))]

/-- Splitting a colon-free string at the first colon yields nothing. -/
theorem splitFirstColon_eq_none (l : List Char) (h : ':' ∉ l) :
    splitFirstColon l = none := by
  induction l with
  | nil => rfl
  | cons c t ih =>
    have hc : ¬(c = ':') := fun e => h (e ▸ List.mem_cons_self c t)
    simp [splitFirstColon, hc, ih (fun m => h (List.mem_cons_of_mem c m))]

/-- C10: `parse_copy` splits only at the first colon — everything before
it is the source (tilde-expanded) and the entire remainder, colons
included, is the target, workspace-prefixed only when not absolute; with
no colon the target is the workspace joined with the expanded source's
basename. -/
theorem parse_copy_spec :
    ∀ (home proj : String),
      (∀ (pre post : List Char), ':' ∉ pre →
        parse_copy home (String.mk (pre ++ ':' :: post)) proj
          = { source := expanduser home (String.mk pre)
              target := if !(startsWithSlash (String.mk post))
                        then "/workspaces/" ++ proj ++ "/" ++ String.mk post
                        else String.mk post })
      ∧ (∀ arg : String, ':' ∉ arg.data →
          parse_copy home arg proj
            = { source := expanduser home arg
                target := "/workspaces/" ++ proj ++ "/" ++ pyName (expanduser home arg) }) := by
  intro home proj
  constructor
  · intro pre post h
    simp [parse_copy, splitFirstColon_append pre post h]
  · intro arg h
    simp [parse_copy, splitFirstColon_eq_none arg.data h]

/-- Witness for C10 on `"~/x:a:b"` (target keeps its second colon) and on
`"~/y"` (no colon: basename target). -/
theorem parse_copy_spec_witness :
    parse_copy "/h" "~/x:a:b" "p" = { source := "/h/x", target := "/workspaces/p/a:b" }
    ∧ parse_copy "/h" "~/y" "p" = { source := "/h/y", target := "/workspaces/p/y" } := by
  constructor
  · have h := (parse_copy_spec "/h" "p").1 ['~', '/', 'x'] ['a', ':', 'b'] (by decide)
    exact h.trans (by decide)
  · have h := (parse_copy_spec "/h" "p").2 "~/y" (by decide)
    exact h.trans (by decide)

/-- Setting a key makes it look up to the new value. -/
theorem jsonLookup_jsonSet_same (kvs : List (String × Json)) (k : String) (v : Json) :
    jsonLookup (jsonSet kvs k v) k = some v := by
  induction kvs with
  | nil => simp [jsonLookup, jsonSet, List.find?_cons]
  | cons hd tl ih =>
    by_cases hk : hd.1 = k
    · simp [jsonLookup, jsonSet, hk, List.find?_cons]
    · have hne : (hd.1 == k) = false := beq_eq_false_iff_ne.mpr hk
      simp only [jsonLookup, jsonSet] at ih ⊢
      simp [hk, List.find?_cons, hne, ih]

/-- Setting a key to the value it already has leaves the object
unchanged. -/
theorem jsonSet_of_lookup_eq (kvs : List (String × Json)) (k : String) (v : Json)
    (h : jsonLookup kvs k = some v) : jsonSet kvs k v = kvs := by
  induction kvs with
  | nil => simp [jsonLookup] at h
  | cons hd tl ih =>
    by_cases hk : hd.1 = k
    · have : hd.2 = v := by
        cases hd with
        | mk k' v' =>
          simp only at hk
          subst hk
          simpa [jsonLookup, List.find?_cons] using h
      cases hd with
      | mk k' v' =>
        simp only at hk this
        subst hk; subst this
        simp [jsonSet]
    · have hne : (hd.1 == k) = false := beq_eq_false_iff_ne.mpr hk
      have h' : jsonLookup tl k = some v := by
        simpa [jsonLookup, List.find?_cons, hne] using h
      cases hd with
      | mk k' v' =>
        simp only at hk
        simp [jsonSet, hk, ih h']

/-- C4: on a descriptor whose `mounts` key holds an array of K entries,
`add_user_mounts` with M mount specs rewrites the descriptor so the
mounts array has exactly K+M entries — the original K unchanged in
content and order at the front, the M new bind-mount strings following in
input order. -/
theorem add_user_mounts_spec (content : List (String × Json)) (mounts : List Mount)
    (old : List Json) (h : jsonLookup content "mounts" = some (Json.arr old)) :
    add_user_mounts content mounts
      = some (jsonSet content "mounts"
          (Json.arr (old ++ mounts.map (fun m => Json.str (mountString m)))))
    ∧ jsonLookup (jsonSet content "mounts"
          (Json.arr (old ++ mounts.map (fun m => Json.str (mountString m))))) "mounts"
      = some (Json.arr (old ++ mounts.map (fun m => Json.str (mountString m))))
    ∧ (old ++ mounts.map (fun m => Json.str (mountString m))).length
      = old.length + mounts.length
    ∧ (old ++ mounts.map (fun m => Json.str (mountString m))).take old.length = old
    ∧ (old ++ mounts.map (fun m => Json.str (mountString m))).drop old.length
      = mounts.map (fun m => Json.str (mountString m)) := by
  refine ⟨?_, jsonLookup_jsonSet_same _ _ _, by simp, by simp, by simp⟩
  by_cases hm : mounts = []
  · subst hm
    simp only [add_user_mounts, List.isEmpty_nil, if_true, List.map_nil, List.append_nil]
    rw [jsonSet_of_lookup_eq _ _ _ h]
  · have hm' : mounts.isEmpty = false := by simpa [List.isEmpty_iff] using hm
    simp [add_user_mounts, hm', h]

/-- Witness for C4 on the spec's example descriptor and two mounts. -/
theorem add_user_mounts_spec_witness :
    add_user_mounts [("name", Json.str "test"), ("mounts", Json.arr [Json.str "existing"])]
        [⟨"/s1", "/t1", false⟩, ⟨"/s2", "/t2", true⟩]
      = some [("name", Json.str "test"),
          ("mounts", Json.arr [Json.str "existing",
            Json.str "source=/s1,target=/t1,type=bind",
            Json.str "source=/s2,target=/t2,type=bind,readonly"])] := by
  have h := (add_user_mounts_spec
    [("name", Json.str "test"), ("mounts", Json.arr [Json.str "existing"])]
    [⟨"/s1", "/t1", false⟩, ⟨"/s2", "/t2", true⟩] [Json.str "existing"] rfl).1
  exact h.trans (by rfl)

/-- Membership from an index lookup. -/
theorem mem_of_getElem?_some {α : Type} {l : List α} {n : Nat} {a : α}
    (h : l[n]? = some a) : a ∈ l := by
  rcases List.getElem?_eq_some.mp h with ⟨hn, rfl⟩
  exact List.getElem_mem hn

/-- Every index of a stop action in a stops-then-removes concatenation is
below every index of a non-stop action. -/
theorem stops_before_removes (A B : List PruneAction)
    (hA : ∀ a ∈ A, a.isStop = true) (hB : ∀ b ∈ B, b.isStop = false)
    (i j : Nat) (x y : PruneAction)
    (hx : (A ++ B)[i]? = some x) (hy : (A ++ B)[j]? = some y)
    (hxs : x.isStop = true) (hys : y.isStop = false) : i < j := by
  have hi : i < A.length := by
    by_contra hge
    push_neg at hge
    rw [List.getElem?_append_right hge] at hx
    have hmem : x ∈ B := mem_of_getElem?_some hx
    rw [hB x hmem] at hxs
    exact absurd hxs (by simp)
  have hj : A.length ≤ j := by
    by_contra hlt
    push_neg at hlt
    rw [List.getElem?_append, if_pos hlt] at hy
    have hmem : y ∈ A := mem_of_getElem?_some hy
    rw [hA y hmem] at hys
    exact absurd hys (by simp)
  omega

/-- C9: in both the global and the project-scoped prune flow, after the
user confirms, every orphaned container has a stop command issued for it,
and every stop in the issued call sequence precedes every removal — no
removal precedes any orphan stop. -/
theorem prune_stops_orphans_before_removals :
    ∀ (r : String) (allContainers : List ContainerInfo) (gitRoot : JPath)
      (dirOnDisk : JPath → Bool) (worktrees : List (String × String × String))
      (wtOnDisk : String → Bool),
      (∀ c ∈ orphanContainers allContainers dirOnDisk,
        PruneAction.stopContainer c.name
          ∈ run_prune_global_trace (some r) allContainers dirOnDisk true)
      ∧ (∀ (i j : Nat) (x y : PruneAction),
          (run_prune_global_trace (some r) allContainers dirOnDisk true)[i]? = some x →
          (run_prune_global_trace (some r) allContainers dirOnDisk true)[j]? = some y →
          x.isStop = true → y.isStop = false → i < j)
      ∧ (∀ c ∈ orphanContainers
            (find_containers_for_project (some r) allContainers gitRoot none) dirOnDisk,
          PruneAction.stopContainer c.name
            ∈ run_prune_trace (some r) allContainers gitRoot dirOnDisk worktrees wtOnDisk true)
      ∧ (∀ (i j : Nat) (x y : PruneAction),
          (run_prune_trace (some r) allContainers gitRoot dirOnDisk worktrees wtOnDisk true)[i]?
            = some x →
          (run_prune_trace (some r) allContainers gitRoot dirOnDisk worktrees wtOnDisk true)[j]?
            = some y →
          x.isStop = true → y.isStop = false → i < j) := by
  intro r allContainers gitRoot dirOnDisk worktrees wtOnDisk
  refine ⟨?_, ?_, ?_, ?_⟩
  · intro c hc
    simp only [run_prune_global_trace]
    have hne : (orphanContainers allContainers dirOnDisk).isEmpty = false := by
      simpa [List.isEmpty_iff] using List.ne_nil_of_mem hc
    rw [if_neg (by simp [hne]), if_neg (by simp)]
    exact List.mem_append_left _ (List.mem_map_of_mem _ hc)
  · intro i j x y hx hy hxs hys
    simp only [run_prune_global_trace] at hx hy
    by_cases hempty : (allContainers.filter (fun c => c.state ≠ "running")).isEmpty
        && (orphanContainers allContainers dirOnDisk).isEmpty
    · rw [if_pos hempty] at hx
      simp at hx
    · rw [if_neg hempty, if_neg (by simp)] at hx hy
      exact stops_before_removes _ _
        (fun a ha => by obtain ⟨c, _, rfl⟩ := List.mem_map.mp ha; rfl)
        (fun b hb => by obtain ⟨c, _, rfl⟩ := List.mem_map.mp hb; rfl)
        i j x y hx hy hxs hys
  · intro c hc
    simp only [run_prune_trace]
    have hne : (orphanContainers
        (find_containers_for_project (some r) allContainers gitRoot none) dirOnDisk).isEmpty
        = false := by
      simpa [List.isEmpty_iff] using List.ne_nil_of_mem hc
    rw [if_neg (by simp [hne]), if_neg (by simp)]
    exact List.mem_append_left _ (List.mem_append_left _ (List.mem_map_of_mem _ hc))
  · intro i j x y hx hy hxs hys
    simp only [run_prune_trace] at hx hy
    by_cases hempty : (find_stopped_containers_for_project (some r) allContainers gitRoot).isEmpty
        && (orphanContainers
            (find_containers_for_project (some r) allContainers gitRoot none) dirOnDisk).isEmpty
        && (find_stale_worktrees worktrees (String.intercalate "/" gitRoot) wtOnDisk).isEmpty
    · rw [if_pos hempty] at hx
      simp at hx
    · rw [if_neg hempty, if_neg (by simp)] at hx hy
      rw [List.append_assoc] at hx hy
      exact stops_before_removes _ _
        (fun a ha => by obtain ⟨c, _, rfl⟩ := List.mem_map.mp ha; rfl)
        (fun b hb => by
          rcases List.mem_append.mp hb with hb | hb
          · obtain ⟨c, _, rfl⟩ := List.mem_map.mp hb; rfl
          · obtain ⟨w, _, rfl⟩ := List.mem_map.mp hb; rfl)
        i j x y hx hy hxs hys

/-- Witness for C9 on one orphan and one stopped container: the orphan's
stop command is in the trace, and the stop at index 0 precedes the
removal at index 1. -/
theorem prune_stops_orphans_before_removals_witness :
    PruneAction.stopContainer "orph"
      ∈ run_prune_global_trace (some "docker")
          [⟨"stp", ["g"], "exited"⟩, ⟨"orph", ["x"], "running"⟩] (fun _ => false) true
    ∧ (0 : Nat) < 1 := by
  have h := prune_stops_orphans_before_removals "docker"
    [⟨"stp", ["g"], "exited"⟩, ⟨"orph", ["x"], "running"⟩] ["g"] (fun _ => false) [] (fun _ => false)
  refine ⟨h.1 ⟨"orph", ["x"], "running"⟩ (by decide), ?_⟩
  exact h.2.1 0 1 (PruneAction.stopContainer "orph") (PruneAction.removeContainer "stp")
    (by decide) (by decide) (by decide) (by decide)

/-- Prefix relation is cancellable on a common front. -/
theorem append_prefix_cancel {α : Type} (w a b : List α) :
    (w ++ a <+: w ++ b) ↔ (a <+: b) := by
  constructor
  · rintro ⟨t, ht⟩
    rw [List.append_assoc] at ht
    exact ⟨t, List.append_cancel_left ht⟩
  · rintro ⟨t, ht⟩
    exact ⟨t, by rw [List.append_assoc, ht]⟩

/-- Both credential cache directories exist in a filesystem state. -/
def cachesPresent (ws : JPath) (fs : FS) : Prop :=
  claudeCachePath ws ∈ fs.dirs ∧ geminiCachePath ws ∈ fs.dirs

/-- Neither cache directory lies below the other. -/
theorem cc_not_under_gc (ws : JPath) : ¬(claudeCachePath ws <+: geminiCachePath ws) := by
  unfold claudeCachePath geminiCachePath
  rw [append_prefix_cancel]
  decide

/-- Neither cache directory lies below the other (other direction). -/
theorem gc_not_under_cc (ws : JPath) : ¬(geminiCachePath ws <+: claudeCachePath ws) := by
  unfold claudeCachePath geminiCachePath
  rw [append_prefix_cancel]
  decide

/-- The statsig destination does not lie above the claude cache. -/
theorem statsig_not_over_cc (ws : JPath) :
    ¬(claudeCachePath ws ++ ["statsig"] <+: claudeCachePath ws) := by
  have he : claudeCachePath ws ++ ["statsig"]
      = ws ++ [".devcontainer", ".claude-cache", "statsig"] := by
    simp [claudeCachePath]
  rw [he]
  unfold claudeCachePath
  rw [append_prefix_cancel]
  decide

/-- The statsig destination does not lie above the gemini cache. -/
theorem statsig_not_over_gc (ws : JPath) :
    ¬(claudeCachePath ws ++ ["statsig"] <+: geminiCachePath ws) := by
  have he : claudeCachePath ws ++ ["statsig"]
      = ws ++ [".devcontainer", ".claude-cache", "statsig"] := by
    simp [claudeCachePath]
  rw [he]
  unfold geminiCachePath
  rw [append_prefix_cancel]
  decide

/-- Clearing the contents of either cache directory (or of any directory
not strictly above them) keeps both cache directory entries. -/
theorem cachesPresent_clear (ws : JPath) (fs : FS) (p : JPath)
    (hp1 : strictUnder p (claudeCachePath ws) = false)
    (hp2 : strictUnder p (geminiCachePath ws) = false)
    (h : cachesPresent ws fs) : cachesPresent ws (clear_directory_contents fs p) := by
  unfold clear_directory_contents
  split
  · exact ⟨List.mem_filter.mpr ⟨h.1, by simp [hp1]⟩,
      List.mem_filter.mpr ⟨h.2, by simp [hp2]⟩⟩
  · exact h

/-- Creating a directory keeps both cache directory entries. -/
theorem cachesPresent_mkdirP (ws : JPath) (fs : FS) (p : JPath)
    (h : cachesPresent ws fs) : cachesPresent ws (mkdirP fs p) :=
  ⟨List.mem_append_right _ h.1, List.mem_append_right _ h.2⟩

/-- Guarded file copies touch only files, never directory entries. -/
theorem cachesPresent_copyIfExists (ws : JPath) (fs : FS) (src dst : JPath)
    (h : cachesPresent ws fs) : cachesPresent ws (copyIfExists fs src dst) := by
  have hd : (copyIfExists fs src dst).dirs = fs.dirs := by
    unfold copyIfExists copyFile setFile
    split <;> rfl
  unfold cachesPresent
  rw [hd]
  exact h

/-- Removing the statsig subtree keeps both cache directory entries. -/
theorem cachesPresent_rmtree_statsig (ws : JPath) (fs : FS)
    (h : cachesPresent ws fs) :
    cachesPresent ws (rmtree fs (claudeCachePath ws ++ ["statsig"])) := by
  refine ⟨List.mem_filter.mpr ⟨h.1, by simp [statsig_not_over_cc ws]⟩,
    List.mem_filter.mpr ⟨h.2, by simp [statsig_not_over_gc ws]⟩⟩

/-- Copying a tree only adds entries. -/
theorem cachesPresent_copytree (ws : JPath) (fs : FS) (src dst : JPath)
    (h : cachesPresent ws fs) : cachesPresent ws (copytree fs src dst) :=
  ⟨List.mem_cons_of_mem _ (List.mem_append_right _ h.1),
    List.mem_cons_of_mem _ (List.mem_append_right _ h.2)⟩

/-- Step 1 of the credential refresh preserves both cache directories. -/
theorem cachesPresent_credState1 (ws : JPath) (fs : FS)
    (h : cachesPresent ws fs) : cachesPresent ws (credState1 ws fs) := by
  unfold credState1
  split
  · refine cachesPresent_clear ws fs _ ?_ ?_ h
    · simp [strictUnder]
    · simp [strictUnder, cc_not_under_gc ws]
  · exact cachesPresent_mkdirP ws fs _ h

/-- Step 2 preserves both cache directories. -/
theorem cachesPresent_credState2 (home ws : JPath) (fs : FS)
    (h : cachesPresent ws fs) : cachesPresent ws (credState2 home ws fs) :=
  cachesPresent_copyIfExists ws _ _ _ (cachesPresent_credState1 ws fs h)

/-- Step 3 preserves both cache directories. -/
theorem cachesPresent_credState3 (home ws : JPath) (fs : FS)
    (h : cachesPresent ws fs) : cachesPresent ws (credState3 home ws fs) :=
  cachesPresent_copyIfExists ws _ _ _ (cachesPresent_credState2 home ws fs h)

/-- Step 4 (statsig `rmtree`) preserves both cache directories. -/
theorem cachesPresent_credState4 (home ws : JPath) (fs : FS)
    (h : cachesPresent ws fs) : cachesPresent ws (credState4 home ws fs) := by
  unfold credState4
  dsimp only
  split
  · exact cachesPresent_rmtree_statsig ws _ (cachesPresent_credState3 home ws fs h)
  · exact cachesPresent_credState3 home ws fs h

/-- Step 5 (statsig `copytree`) preserves both cache directories. -/
theorem cachesPresent_credState5 (home ws : JPath) (fs : FS)
    (h : cachesPresent ws fs) : cachesPresent ws (credState5 home ws fs) := by
  unfold credState5
  split
  · exact cachesPresent_copytree ws _ _ _ (cachesPresent_credState4 home ws fs h)
  · exact cachesPresent_credState4 home ws fs h

/-- Step 6 preserves both cache directories. -/
theorem cachesPresent_credState6 (home ws : JPath) (fs : FS)
    (h : cachesPresent ws fs) : cachesPresent ws (credState6 home ws fs) :=
  cachesPresent_copyIfExists ws _ _ _ (cachesPresent_credState5 home ws fs h)

/-- Step 7 (gemini clear-or-create) preserves both cache directories. -/
theorem cachesPresent_credState7 (home ws : JPath) (fs : FS)
    (h : cachesPresent ws fs) : cachesPresent ws (credState7 home ws fs) := by
  unfold credState7
  dsimp only
  split
  · refine cachesPresent_clear ws _ _ ?_ ?_ (cachesPresent_credState6 home ws fs h)
    · simp [strictUnder, gc_not_under_cc ws]
    · simp [strictUnder]
  · exact cachesPresent_mkdirP ws _ _ (cachesPresent_credState6 home ws fs h)

/-- Step 8 preserves both cache directories. -/
theorem cachesPresent_credState8 (home ws : JPath) (fs : FS)
    (h : cachesPresent ws fs) : cachesPresent ws (credState8 home ws fs) :=
  cachesPresent_copyIfExists ws _ _ _ (cachesPresent_credState7 home ws fs h)

/-- Step 9 preserves both cache directories. -/
theorem cachesPresent_credState9 (home ws : JPath) (fs : FS)
    (h : cachesPresent ws fs) : cachesPresent ws (credState9 home ws fs) :=
  cachesPresent_copyIfExists ws _ _ _ (cachesPresent_credState8 home ws fs h)

/-- Step 10 preserves both cache directories. -/
theorem cachesPresent_credState10 (home ws : JPath) (fs : FS)
    (h : cachesPresent ws fs) : cachesPresent ws (credState10 home ws fs) :=
  cachesPresent_copyIfExists ws _ _ _ (cachesPresent_credState9 home ws fs h)

/-- C2: for a workspace whose credential cache directories already exist,
`setup_credential_cache` never removes the cache directory entries at any
point during the refresh — they are present in the initial state, after
every intermediate mutation step, and in the final state. -/
theorem setup_credential_cache_preserves_cache_dirs :
    ∀ (home ws : JPath) (fs : FS),
      claudeCachePath ws ∈ fs.dirs → geminiCachePath ws ∈ fs.dirs →
      ∀ s ∈ setup_credential_cache_states home ws fs,
        claudeCachePath ws ∈ s.dirs ∧ geminiCachePath ws ∈ s.dirs := by
  intro home ws fs h1 h2 s hs
  have k0 : cachesPresent ws fs := ⟨h1, h2⟩
  simp only [setup_credential_cache_states, List.mem_cons, List.not_mem_nil, or_false] at hs
  rcases hs with rfl | rfl | rfl | rfl | rfl | rfl | rfl | rfl | rfl | rfl | rfl
  · exact k0
  · exact cachesPresent_credState1 ws fs k0
  · exact cachesPresent_credState2 home ws fs k0
  · exact cachesPresent_credState3 home ws fs k0
  · exact cachesPresent_credState4 home ws fs k0
  · exact cachesPresent_credState5 home ws fs k0
  · exact cachesPresent_credState6 home ws fs k0
  · exact cachesPresent_credState7 home ws fs k0
  · exact cachesPresent_credState8 home ws fs k0
  · exact cachesPresent_credState9 home ws fs k0
  · exact cachesPresent_credState10 home ws fs k0

/-- Splitting never yields the empty list of chunks. -/
theorem splitOnChar_ne_nil (sep : Char) (l : List Char) : splitOnChar sep l ≠ [] := by
  induction l with
  | nil => simp [splitOnChar]
  | cons c t ih =>
    by_cases hc : c = sep
    · simp [splitOnChar, hc]
    · simp only [splitOnChar, hc, if_false]
      cases h : splitOnChar sep t with
      | nil => simp
      | cons a b => simp

/-- A separator-free string splits to the single chunk holding it. -/
theorem splitOnChar_of_not_mem (sep : Char) (l : List Char) (h : sep ∉ l) :
    splitOnChar sep l = [l] := by
  induction l with
  | nil => rfl
  | cons c t ih =>
    have hc : ¬(c = sep) := fun e => h (e ▸ List.mem_cons_self c t)
    simp only [splitOnChar, hc, if_false, ih (fun m => h (List.mem_cons_of_mem c m))]

/-- Splitting text extended by a separator and a separator-free tail
appends that tail as one further chunk. -/
theorem splitOnChar_append_sep (sep : Char) (t r : List Char) (hr : sep ∉ r) :
    splitOnChar sep (t ++ sep :: r) = splitOnChar sep t ++ [r] := by
  induction t with
  | nil => simp [splitOnChar, splitOnChar_of_not_mem sep r hr]
  | cons c t ih =>
    by_cases hc : c = sep
    · subst hc
      simp [splitOnChar, ih]
    · simp only [List.cons_append, splitOnChar, hc, if_false, List.append_eq]
      rw [ih]
      cases h : splitOnChar sep t with
      | nil => exact absurd h (splitOnChar_ne_nil sep t)
      | cons a b => simp

/-- Joining undoes splitting. -/
theorem joinOnChar_splitOnChar (sep : Char) (l : List Char) :
    joinOnChar sep (splitOnChar sep l) = l := by
  induction l with
  | nil => rfl
  | cons c t ih
  =>
    by_cases hc : c = sep
    · subst hc
      simp only [splitOnChar, if_pos rfl]
      cases h : splitOnChar c t with
      | nil => exact absurd h (splitOnChar_ne_nil c t)
      | cons a b =>
        rw [h] at ih
        simp [joinOnChar, ih]
    · simp only [splitOnChar, hc, if_false]
      cases h : splitOnChar sep t with
      | nil => exact absurd h (splitOnChar_ne_nil sep t)
      | cons a b =>
        rw [h] at ih
        cases b with
        | nil => simpa [joinOnChar] using congrArg (c :: ·) ih
        | cons b0 bs =>
          simp only [joinOnChar] at ih ⊢
          simp [ih]

/-- Joining after appending one further chunk appends a separator and
that chunk. -/
theorem joinOnChar_concat (sep : Char) (ys : List (List Char)) (b : List Char)
    (h : ys ≠ []) : joinOnChar sep (ys ++ [b]) = joinOnChar sep ys ++ sep :: b := by
  induction ys with
  | nil => exact absurd rfl h
  | cons y ys ih =>
    cases ys with
    | nil => simp [joinOnChar]
    | cons y2 ys2 =>
      have hih := ih (by simp)
      simp only [List.cons_append] at hih ⊢
      simp only [joinOnChar]
      rw [hih]
      simp [List.append_assoc]

/-- A mount produced by `resolveMountParts` carries the readonly flag it
was given. -/
theorem resolveMountParts_readonly (home proj : String) (parts : List (List Char))
    (ro : Bool) (m : Mount) (h : resolveMountParts home proj parts ro = some m) :
    m.readonly = ro := by
  match parts, h with
  | p0 :: p1 :: rest, h =>
    simp only [resolveMountParts, Option.some.injEq] at h
    rw [← h]

/-- C3's core equivalence: `parse_mount` computes exactly the
strip-suffix-then-split specification. -/
theorem parse_mount_eq_spec (home arg proj : String) :
    parse_mount home arg proj = parse_mount_spec home arg proj := by
  unfold parse_mount parse_mount_spec
  dsimp only
  by_cases h : [':', 'r', 'o'] <:+ arg.data
  · obtain ⟨t, ht⟩ := h
    have hsuf : ([':', 'r', 'o'].isSuffixOf arg.data) = true :=
      List.isSuffixOf_iff_suffix.mpr ⟨t, ht⟩
    have hsplit : splitColon arg.data = splitColon t ++ [['r', 'o']] := by
      rw [← ht]
      exact splitOnChar_append_sep ':' t ['r', 'o'] (by decide)
    have hne := splitOnChar_ne_nil ':' t
    have hlen : 1 ≤ (splitColon t).length := List.length_pos.mpr hne
    have hcond : (decide ((splitColon arg.data).length ≥ 2)
        && ((splitColon arg.data).getLastD [] == "ro".data)) = true := by
      rw [hsplit, Bool.and_eq_true]
      constructor
      · simp only [List.length_append, List.length_cons, List.length_nil,
          decide_eq_true_eq]
        omega
      · simp
    have hcore : arg.data.take (arg.data.length - 3) = t := by
      rw [← ht]
      simp only [List.length_append, List.length_cons, List.length_nil,
        Nat.add_sub_cancel]
      exact List.take_left t [':', 'r', 'o']
    rw [hcond, hsuf, if_pos rfl, if_pos rfl, hcore, hsplit, List.dropLast_concat]
  · have hsuf : ([':', 'r', 'o'].isSuffixOf arg.data) = false := by
      rw [Bool.eq_false_iff]
      intro hc
      exact h (List.isSuffixOf_iff_suffix.mp hc)
    have hcond : (decide ((splitColon arg.data).length ≥ 2)
        && ((splitColon arg.data).getLastD [] == "ro".data)) = false := by
      rw [Bool.eq_false_iff]
      intro hc
      rw [Bool.and_eq_true] at hc
      obtain ⟨hlen, hlast⟩ := hc
      have hlen' : 2 ≤ (splitColon arg.data).length := by simpa using hlen
      have hne : splitColon arg.data ≠ [] := splitOnChar_ne_nil ':' arg.data
      have hlast' : (splitColon arg.data).getLastD [] = ['r', 'o'] := by
        simpa using hlast
      have hdecomp : (splitColon arg.data).dropLast ++ [['r', 'o']] = splitColon arg.data := by
        have hgl := List.dropLast_append_getLast hne
        rw [show (splitColon arg.data).getLast hne = ['r', 'o'] by
          rw [← hlast']
          simp [List.getLastD_eq_getLast?, List.getLast?_eq_getLast _ hne]] at hgl
        exact hgl
      have hys : (splitColon arg.data).dropLast ≠ [] := by
        intro he
        rw [he] at hdecomp
        have hlc := congrArg List.length hdecomp
        simp at hlc
        omega
      have hjoin : arg.data = joinOnChar ':' ((splitColon arg.data).dropLast) ++ ':' :: ['r', 'o'] := by
        have hjc : joinOnChar ':' ((splitColon arg.data).dropLast ++ [['r', 'o']])
            = joinOnChar ':' ((splitColon arg.data).dropLast) ++ ':' :: ['r', 'o'] :=
          joinOnChar_concat ':' _ _ hys
        rw [← hjc, hdecomp]
        exact (joinOnChar_splitOnChar ':' arg.data).symm
      exact h ⟨joinOnChar ':' ((splitColon arg.data).dropLast), hjoin.symm⟩
    rw [hcond, hsuf]
    simp

/-- C3: for every accepted mount argument, the `:ro` suffix is stripped
before the split into source and target (`parse_mount` coincides with the
strip-then-split specification on all inputs), the readonly flag is true
exactly when the suffix was present, and
`parse_mount("~/data:foo:ro", "myproj")` yields the expanded home source,
the workspace-resolved target and readonly. -/
theorem parse_mount_ro_spec :
    (∀ home arg proj, parse_mount home arg proj = parse_mount_spec home arg proj)
    ∧ (∀ home arg proj m, parse_mount home arg proj = some m →
        (m.readonly = true ↔ [':', 'r', 'o'] <:+ arg.data))
    ∧ ∀ home, parse_mount home "~/data:foo:ro" "myproj"
        = some { source := home ++ "/data", target := "/workspaces/myproj/foo",
                 readonly := true } := by
  refine ⟨parse_mount_eq_spec, ?_, ?_⟩
  · intro home arg proj m hm
    rw [parse_mount_eq_spec] at hm
    unfold parse_mount_spec at hm
    dsimp only at hm
    have hro := resolveMountParts_readonly _ _ _ _ _ hm
    rw [hro]
    exact List.isSuffixOf_iff_suffix
  · intro home
    have h1 : splitColon "~/data:foo:ro".data
        = [['~', '/', 'd', 'a', 't', 'a'], ['f', 'o', 'o'], ['r', 'o']] := rfl
    simp only [parse_mount, h1]
    rw [if_pos (by decide)]
    simp only [List.dropLast_concat, resolveMountParts, joinColon, joinOnChar]
    simp only [resolveMountTarget, expanduser]
    rfl

/-- Witness for C3 on the accepted argument `"a:b:ro"`: readonly holds
and the argument indeed ends in `":ro"`. -/
theorem parse_mount_ro_spec_witness :
    (Mount.readonly { source := "a", target := "/workspaces/p/b", readonly := true } = true)
    ↔ ([':', 'r', 'o'] <:+ "a:b:ro".data) :=
  parse_mount_ro_spec.2.1 "/h" "a:b:ro" "p"
    { source := "a", target := "/workspaces/p/b", readonly := true } (by decide)

/-- Witness for C2 on a concrete workspace with both cache directories
present and one host credential file: both directories survive to the
final state of the refresh. -/
theorem setup_credential_cache_preserves_cache_dirs_witness :
    claudeCachePath ["w"] ∈ (credState10 ["h"] ["w"]
      ⟨[["w", ".devcontainer", ".claude-cache"], ["w", ".devcontainer", ".gemini-cache"]],
        [(["h", ".claude", "settings.json"], "S")]⟩).dirs
    ∧ geminiCachePath ["w"] ∈ (credState10 ["h"] ["w"]
      ⟨[["w", ".devcontainer", ".claude-cache"], ["w", ".devcontainer", ".gemini-cache"]],
        [(["h", ".claude", "settings.json"], "S")]⟩).dirs := by
  have h := setup_credential_cache_preserves_cache_dirs ["h"] ["w"]
    ⟨[["w", ".devcontainer", ".claude-cache"], ["w", ".devcontainer", ".gemini-cache"]],
      [(["h", ".claude", "settings.json"], "S")]⟩
    (by decide) (by decide)
  exact h _ (by simp [setup_credential_cache_states])

end Jolo
